import Mathlib

/-!
# Verification of the PG-View client and data-loading scripts

This development embeds the observable behaviour of the PG-View Python client
(`python-client/pgview_client.py`), the demo/loader scripts
(`scripts/generate_dummy_data.py`, `scripts/load_dummy_data.py`,
`scripts/load_movielens_data.py`, `scripts/query_movielens.py`) and, where the
engine itself is not part of the repository, the boundary contract described in
the specification (result-summary shape, skolem identity assigner).

Python strings are modelled as lists of characters (`PyStr`), Python integers
as `Int`/`Nat`, Python dicts of JSON values as association lists, and the
random number generator as an abstract entropy stream `Nat → Nat` threaded by
position, with `random.randint(lo, hi)` clamping a raw draw into `[lo, hi]`.
-/

set_option autoImplicit false

namespace PGView

/-- Python strings, modelled as lists of characters. -/
abbrev PyStr := List Char

/-- Decimal rendering of a natural number, modelling Python `str(n)` for a
non-negative integer: most significant digit first. -/
def natChars (n : Nat) : List Char :=
  if _h : n < 10 then [Nat.digitChar n]
  else natChars (n / 10) ++ [Nat.digitChar (n % 10)]
termination_by n
decreasing_by
  exact Nat.div_lt_self (Nat.lt_of_lt_of_le (by decide) (Nat.le_of_not_lt _h)) (by decide)

/-- Decimal rendering of an integer, modelling Python `str(i)`. -/
def intChars (i : Int) : List Char :=
  if i < 0 then '-' :: natChars i.natAbs else natChars i.toNat

theorem natChars_of_lt {n : Nat} (h : n < 10) : natChars n = [Nat.digitChar n] := by
  rw [natChars]
  simp [h]

theorem natChars_of_ge {n : Nat} (h : ¬ n < 10) :
    natChars n = natChars (n / 10) ++ [Nat.digitChar (n % 10)] := by
  rw [natChars]
  simp [h]

theorem digitChar_isDigit {d : Nat} (h : d < 10) : (Nat.digitChar d).isDigit = true := by
  interval_cases d <;> decide

theorem natChars_ne_nil (n : Nat) : natChars n ≠ [] := by
  by_cases h : n < 10
  · rw [natChars_of_lt h]
    simp
  · rw [natChars_of_ge h]
    simp

theorem natChars_all_digits (n : Nat) : ∀ c ∈ natChars n, c.isDigit = true := by
  induction n using Nat.strong_induction_on with
  | _ n ih =>
    by_cases h : n < 10
    · rw [natChars_of_lt h]
      intro c hc
      simp only [List.mem_singleton] at hc
      subst hc
      exact digitChar_isDigit h
    · rw [natChars_of_ge h]
      intro c hc
      rcases List.mem_append.mp hc with hc | hc
      · exact ih (n / 10) (Nat.div_lt_self (by omega) (by decide)) c hc
      · simp only [List.mem_singleton] at hc
        subst hc
        exact digitChar_isDigit (Nat.mod_lt _ (by decide))

theorem isDigit_ne_hash {c : Char} (h : c.isDigit = true) : c ≠ '#' := by
  intro hc
  subst hc
  simp at h

theorem isDigit_ne_colon {c : Char} (h : c.isDigit = true) : c ≠ ':' := by
  intro hc
  subst hc
  simp at h

theorem isDigit_not_whitespace {c : Char} (h : c.isDigit = true) : c.isWhitespace = false := by
  by_contra hw
  rw [Bool.not_eq_false] at hw
  simp only [Char.isWhitespace, Bool.or_eq_true, decide_eq_true_eq] at hw
  rcases hw with ((hc | hc) | hc) | hc <;> subst hc <;> simp at h

/-! ## The client's insert methods (`pgview_client.py`, `PGViewClient`)

Each `insert_*` method issues `self._request("POST", "/data/insert", {...})`
with a payload holding a relation name and a comma-separated argument string
built by a Python f-string.  We model the issued request by its method,
endpoint, relation name and argument text. -/

/-- The request descriptor a `PGViewClient.insert_*` method hands to
`_request`: HTTP method, endpoint, and the `relName`/`args` payload fields. -/
structure ApiRequest where
  method : String
  endpoint : String
  relName : String
  args : PyStr
  deriving DecidableEq

/-- `PGViewClient.insert_node(node_id, label)`: posts
`{"relName": "N", "args": f'{node_id},"{label}"'}` to `/data/insert`. -/
def insert_node (node_id : Int) (label : PyStr) : ApiRequest :=
  { method := "POST", endpoint := "/data/insert", relName := "N",
    args := intChars node_id ++ [',', '"'] ++ label ++ ['"'] }

/-- `PGViewClient.insert_edge(edge_id, from_id, to_id, label)`: posts
`{"relName": "E", "args": f'{edge_id},{from_id},{to_id},"{label}"'}`. -/
def insert_edge (edge_id from_id to_id : Int) (label : PyStr) : ApiRequest :=
  { method := "POST", endpoint := "/data/insert", relName := "E",
    args := intChars edge_id ++ [','] ++ intChars from_id ++ [','] ++ intChars to_id
      ++ [',', '"'] ++ label ++ ['"'] }

/-- `PGViewClient.insert_node_property(node_id, prop_name, prop_value)`: posts
`{"relName": "NP", "args": f'{node_id},"{prop_name}","{prop_value}"'}`. -/
def insert_node_property (node_id : Int) (prop_name prop_val : PyStr) : ApiRequest :=
  { method := "POST", endpoint := "/data/insert", relName := "NP",
    args := intChars node_id ++ [',', '"'] ++ prop_name ++ ['"', ',', '"'] ++ prop_val ++ ['"'] }

/-- `PGViewClient.insert_edge_property(edge_id, prop_name, prop_value)`: posts
`{"relName": "EP", "args": f'{edge_id},"{prop_name}","{prop_value}"'}`. -/
def insert_edge_property (edge_id : Int) (prop_name prop_val : PyStr) : ApiRequest :=
  { method := "POST", endpoint := "/data/insert", relName := "EP",
    args := intChars edge_id ++ [',', '"'] ++ prop_name ++ ['"', ',', '"'] ++ prop_val ++ ['"'] }

/-! ## The spec's `insertFact` relation signatures

The spec §6 describes the boundary operation
`insertFact(relation: N|E|NP|EP, args: ordered values)` with
`N(id, label)`, `E(id, from, to, label)`, `NP(id, key, value)`,
`EP(id, key, value)`. An argument is an integer (rendered bare) or a string
(rendered double-quoted); arguments are joined by commas, in order. -/

/-- An argument of the spec's `insertFact` relation: an integer value or a
string value. -/
inductive FactArg where
  | int (i : Int)
  | str (s : PyStr)

/-- Render one `insertFact` argument: integers bare, strings double-quoted. -/
def renderFactArg : FactArg → PyStr
  | .int i => intChars i
  | .str s => '"' :: (s ++ ['"'])

/-- Render an ordered `insertFact` argument list, comma-separated. -/
def renderFactArgs : List FactArg → PyStr
  | [] => []
  | [a] => renderFactArg a
  | a :: b :: rest => renderFactArg a ++ [','] ++ renderFactArgs (b :: rest)

/-- The spec's `insertFact(relation, args)` boundary call, as the request the
transport layer receives. -/
def insertFact (relation : String) (as : List FactArg) : ApiRequest :=
  { method := "POST", endpoint := "/data/insert", relName := relation,
    args := renderFactArgs as }

/-- C2: `insert_node` posts relName `"N"` with args ordered `id,label`;
`insert_edge` posts `"E"` with `id,from,to,label`; `insert_node_property`
posts `"NP"` with `id,key,value`; `insert_edge_property` posts `"EP"` with
`id,key,value` — matching the spec's `insertFact` relation signatures in
relation name, arity and argument order. -/
theorem client_inserts_match_insertFact_signatures :
    (∀ (node_id : Int) (label : PyStr),
      insert_node node_id label = insertFact "N" [.int node_id, .str label]) ∧
    (∀ (edge_id from_id to_id : Int) (label : PyStr),
      insert_edge edge_id from_id to_id label
        = insertFact "E" [.int edge_id, .int from_id, .int to_id, .str label]) ∧
    (∀ (node_id : Int) (k v : PyStr),
      insert_node_property node_id k v = insertFact "NP" [.int node_id, .str k, .str v]) ∧
    (∀ (edge_id : Int) (k v : PyStr),
      insert_edge_property edge_id k v = insertFact "EP" [.int edge_id, .str k, .str v]) := by
  refine ⟨fun node_id label => ?_, fun edge_id from_id to_id label => ?_,
    fun node_id k v => ?_, fun edge_id k v => ?_⟩ <;>
    simp [insert_node, insert_edge, insert_node_property, insert_edge_property,
      insertFact, renderFactArgs, renderFactArg]

/-! ## `create_simple_view` and the spec's view-definition grammar -/

/-- `PGViewClient.create_simple_view(view_name, node_label, edge_label,
base_graph)`: the definition text built by the Python f-string
`CREATE virtual VIEW {view_name} ON {base_graph} (\n  MATCH
(a:{node_label})-[x:{edge_label}]->(b:{node_label})\n)`. -/
def create_simple_view (view_name node_label edge_label base_graph : PyStr) : PyStr :=
  "CREATE virtual VIEW ".toList ++ view_name ++ " ON ".toList ++ base_graph
    ++ " (\n  MATCH (a:".toList ++ node_label ++ ")-[x:".toList ++ edge_label
    ++ "]->(b:".toList ++ node_label ++ ")\n)".toList

/-- The spec §6 view-definition production
`CREATE [virtual] VIEW <name> ON <graphRef> ( MATCH <pattern> )` with the
`virtual` keyword present and none of the optional `WITH DEFAULT MAP`,
`WHERE`, `CONSTRUCT`, `SET` clauses, inter-token whitespace as emitted by the
client. -/
def viewDefinitionText (name graphRef pattern : PyStr) : PyStr :=
  "CREATE virtual VIEW ".toList ++ name ++ " ON ".toList ++ graphRef
    ++ " (\n  MATCH ".toList ++ pattern ++ "\n)".toList

/-- The one-edge pattern `(a:<node_label>)-[x:<edge_label>]->(b:<node_label>)`
that `create_simple_view` matches. -/
def simpleViewPattern (node_label edge_label : PyStr) : PyStr :=
  "(a:".toList ++ node_label ++ ")-[x:".toList ++ edge_label
    ++ "]->(b:".toList ++ node_label ++ ")".toList

/-- C4: the definition text generated by `create_simple_view` is exactly an
instance of the spec's production `CREATE [virtual] VIEW <name> ON <graphRef>
( MATCH <pattern> )` at the view name, base graph, and one-edge pattern — with
no `WHERE`, `CONSTRUCT`, or `SET` clause present. -/
theorem create_simple_view_conforms_to_grammar
    (view_name node_label edge_label base_graph : PyStr) :
    create_simple_view view_name node_label edge_label base_graph
      = viewDefinitionText view_name base_graph (simpleViewPattern node_label edge_label) := by
  simp only [create_simple_view, viewDefinitionText, simpleViewPattern]
  have h1 : " (\n  MATCH (a:".toList = " (\n  MATCH ".toList ++ "(a:".toList := by decide
  have h2 : ")\n)".toList = ")".toList ++ "\n)".toList := by decide
  rw [h1, h2]
  simp

/-! ## Python JSON values and dict lookups

The client's `_request` and the loaders consume `.json()` response bodies:
dicts mapping string keys to JSON values.  `pyGet` models `dict.get(k)`
(`Option.none` when absent), `pyGetD` models `dict.get(k, default)`, and
`truthy` models Python truthiness of an optional value (as used by
`if not result.get("success")`). -/

/-- A Python/JSON value, as far as the client inspects them. -/
inductive PyVal where
  | bool (b : Bool)
  | str (s : String)
  | int (i : Int)
  | none
  deriving DecidableEq

/-- A Python dict with string keys, e.g. a decoded JSON response body. -/
abbrev PyDict := List (String × PyVal)

/-- `d.get(k)`: the value of the first entry with key `k`, if any. -/
def pyGet (d : PyDict) (k : String) : Option PyVal :=
  (d.find? (fun e => e.1 == k)).map (fun e => e.2)

/-- `d.get(k, default)`. -/
def pyGetD (d : PyDict) (k : String) (dflt : PyVal) : PyVal :=
  (pyGet d k).getD dflt

/-- Python truthiness of `d.get(k)`-style optional values: `None` and a
missing key are falsy, booleans are themselves, `""` and `0` are falsy. -/
def truthy : Option PyVal → Bool
  | Option.none => false
  | some (.bool b) => b
  | some (.str s) => !(s == "")
  | some (.int i) => !(i == 0)
  | some .none => false

/-! ## `PGViewClient._request` error handling

`_request` builds the URL, dispatches on the HTTP method, raises `ValueError`
for an unsupported method, and wraps the whole attempt in
`try ... except requests.exceptions.RequestException`.  The outcome of the
underlying HTTP attempt (including `raise_for_status`, which turns a non-2xx
status into an `HTTPError`, a `RequestException` subclass) is modelled as an
input: either a decoded JSON body or a raised `RequestException` message. -/

/-- Outcome of the underlying HTTP attempt inside `_request`'s `try` block:
a decoded JSON response body, or a raised `requests.RequestException`
(connection failure, timeout, or non-2xx status via `raise_for_status`). -/
inductive HttpAttempt where
  | resp (body : PyDict)
  | raises (msg : String)

/-- `PGViewClient._request(method, endpoint, data)`: returns the decoded
body, or `{"success": False, "error": str(e)}` when the attempt raises a
`RequestException`; an unsupported HTTP method raises `ValueError`
(modelled by `Except.error`), which the `except` clause does not catch. -/
def pgvRequest (method : String) (attempt : HttpAttempt) : Except String PyDict :=
  if method = "GET" ∨ method = "POST" ∨ method = "DELETE" then
    match attempt with
    | .resp body => .ok body
    | .raises msg => .ok [("success", .bool false), ("error", .str msg)]
  else
    .error ("Unsupported HTTP method: " ++ method)

/-- C8: for every HTTP method in `{GET, POST, DELETE}`, if the underlying
request raises a `requests.RequestException`, `_request` returns the dict
`{"success": False, "error": <message>}` instead of propagating the
exception. -/
theorem request_returns_error_dict_on_exception (method : String) (msg : String)
    (h : method = "GET" ∨ method = "POST" ∨ method = "DELETE") :
    pgvRequest method (.raises msg)
      = .ok [("success", .bool false), ("error", .str msg)] := by
  simp [pgvRequest, h]

/-- Witness for C8: a concrete transport failure on `GET` yields the error
dict. -/
theorem request_returns_error_dict_on_exception_witness :
    ("GET" = "GET" ∨ "GET" = "POST" ∨ "GET" = "DELETE") ∧
    pgvRequest "GET" (.raises "connection refused")
      = .ok [("success", .bool false), ("error", .str "connection refused")] :=
  ⟨Or.inl rfl,
    request_returns_error_dict_on_exception "GET" "connection refused" (Or.inl rfl)⟩

/-! ## `PGViewClient.setup_graph`

```python
result = self.connect(platform)
if not result.get("success"):
    return False
self.create_graph(graph_name)  # May fail if exists, but that's ok
result = self.use_graph(graph_name)
return result.get("success", False)
```

The three server responses are inputs of the model; the value returned by
`create_graph` is bound to no variable and never inspected. -/

/-- `PGViewClient.setup_graph`, as a function of the three response dicts of
the `connect`, `create_graph`, and `use_graph` calls it makes. -/
def setup_graph (connectRes _createRes useRes : PyDict) : PyVal :=
  if !(truthy (pyGet connectRes "success")) then .bool false
  else pyGetD useRes "success" (.bool false)

/-- C9: `setup_graph` returns `True` iff the `connect` response reports
success (truthy `success` value) and the `use_graph` response's `success`
value is `True`; the `create_graph` response is ignored, so an
already-existing graph cannot make `setup_graph` return `False`. -/
theorem setup_graph_ignores_create_result (connectRes createRes useRes : PyDict) :
    (setup_graph connectRes createRes useRes = .bool true
      ↔ truthy (pyGet connectRes "success") = true
          ∧ pyGetD useRes "success" (.bool false) = .bool true) ∧
    (∀ createRes' : PyDict,
      setup_graph connectRes createRes' useRes = setup_graph connectRes createRes useRes) := by
  constructor
  · by_cases hc : truthy (pyGet connectRes "success")
    · simp [setup_graph, hc]
    · simp [setup_graph, hc]
  · intro createRes'
    rfl

/-! ## Skolem identity assigner (spec §4.4) -/

/-- A bound value passed to a skolem functor: a node/edge id or a string. -/
inductive SkValue where
  | int (i : Int)
  | str (s : PyStr)
  deriving DecidableEq

/-- Modelled from the spec: the type tag of one skolem argument.  The
skolemizer itself is not part of the repository (the scripts only invoke it
through view text such as `SK("expertise", p, t)`); §4.4 specifies
"deterministic hashing of the functor name concatenated with the ordered,
type-tagged argument values". -/
def skTagged : SkValue → PyStr
  | .int i => 'i' :: intChars i
  | .str s => 's' :: s

/-- Modelled from the spec: the functor name concatenated with the ordered,
type-tagged argument values (each argument wrapped in its own delimiters). -/
def skolemEncode (functorName : PyStr) (args : List SkValue) : PyStr :=
  functorName ++ (args.map (fun a => '(' :: (skTagged a ++ [')']))).flatten

/-- One step of a 64-bit FNV-1a-style hash over characters. -/
def skHashStep (h : Nat) (c : Char) : Nat :=
  ((h ^^^ c.toNat) * 16777619) % 2 ^ 64

/-- Modelled from the spec: `derive(functorName, args) -> StableId`, a wide
deterministic hash of the encoded functor application.  No process, session,
query or counter state enters the computation. -/
def derive (functorName : PyStr) (args : List SkValue) : Nat :=
  (skolemEncode functorName args).foldl skHashStep (14695981039346656037 % 2 ^ 64)

/-- C1: `derive` is a pure, deterministic function of
`(functorName, args)` — any two evaluations with the same functor name and
the same ordered argument values produce the identical derived identifier,
across repeated evaluations and process restarts. -/
theorem derive_deterministic (f₁ f₂ : PyStr) (a₁ a₂ : List SkValue)
    (hf : f₁ = f₂) (ha : a₁ = a₂) : derive f₁ a₁ = derive f₂ a₂ := by
  subst hf
  subst ha
  rfl

/-- Witness for C1: the spec's construction-determinism example — two
evaluations of `SK("expertise", p, t)` with bindings `p=1, t=3` in separate
queries yield the same derived edge id. -/
theorem derive_deterministic_witness :
    "expertise".toList = "expertise".toList ∧
    ([SkValue.int 1, SkValue.int 3] = [SkValue.int 1, SkValue.int 3]) ∧
    derive "expertise".toList [SkValue.int 1, SkValue.int 3]
      = derive "expertise".toList [SkValue.int 1, SkValue.int 3] :=
  ⟨rfl, rfl,
    derive_deterministic "expertise".toList "expertise".toList
      [SkValue.int 1, SkValue.int 3] [SkValue.int 1, SkValue.int 3] rfl rfl⟩

/-! ## Quote escaping in `load_dummy_data.py`

For each string-valued property the loader runs
`prop_value = prop_value.replace('"', '\\"')` and then embeds the result in
`insert NP({id}, "{key}", "{value}");` (and likewise `EP`).  `escapeQuotes`
is `str.replace('"', '\\"')` specialised to this call. -/

/-- `value.replace('"', '\\"')`: every double-quote character becomes a
backslash followed by a double quote; all other characters are unchanged. -/
def escapeQuotes : PyStr → PyStr
  | [] => []
  | c :: rest => if c = '"' then '\\' :: '"' :: escapeQuotes rest else c :: escapeQuotes rest

/-- The `insert NP(...);` command text `load_dummy_data.py` issues for a
string-valued node property (after its quote-escaping step). -/
def npInsertCmd (node_id : Nat) (key value : PyStr) : PyStr :=
  "insert NP(".toList ++ natChars node_id ++ ", \"".toList ++ key
    ++ "\", \"".toList ++ escapeQuotes value ++ "\");".toList

/-- The `insert EP(...);` command text `load_dummy_data.py` issues for a
string-valued edge property (after its quote-escaping step). -/
def epInsertCmd (edge_id : Nat) (key value : PyStr) : PyStr :=
  "insert EP(".toList ++ natChars edge_id ++ ", \"".toList ++ key
    ++ "\", \"".toList ++ escapeQuotes value ++ "\");".toList

/-- Scans a character sequence and checks that every double-quote in it is
immediately preceded by a backslash (a backslash-quote pair is consumed as a
unit). -/
def quotesAllEscaped : PyStr → Bool
  | [] => true
  | c :: rest =>
      if c = '"' then false
      else if c = '\\' ∧ rest.head? = some '"' then quotesAllEscaped rest.tail
      else quotesAllEscaped rest
termination_by l => l.length
decreasing_by
  · simp [List.length_tail]
    omega
  · simp

theorem quotesAllEscaped_cons (c : Char) (rest : PyStr) :
    quotesAllEscaped (c :: rest)
      = if c = '"' then false
        else if c = '\\' ∧ rest.head? = some '"' then quotesAllEscaped rest.tail
        else quotesAllEscaped rest := by
  rw [quotesAllEscaped]

theorem escapeQuotes_head?_ne_quote (v : PyStr) : (escapeQuotes v).head? ≠ some '"' := by
  cases v with
  | nil => simp [escapeQuotes]
  | cons c rest =>
    by_cases hc : c = '"'
    · simp [escapeQuotes, hc]
    · simp [escapeQuotes, hc]

theorem quotesAllEscaped_escapeQuotes (v : PyStr) :
    quotesAllEscaped (escapeQuotes v) = true := by
  induction v with
  | nil =>
    show quotesAllEscaped [] = true
    rw [quotesAllEscaped]
  | cons c rest ih =>
    by_cases hq : c = '"'
    · subst hq
      show quotesAllEscaped ('\\' :: '"' :: escapeQuotes rest) = true
      rw [quotesAllEscaped_cons]
      simp only [List.head?_cons, List.tail_cons]
      rw [if_neg (by decide), if_pos (by simp)]
      exact ih
    · rw [show escapeQuotes (c :: rest) = c :: escapeQuotes rest by simp [escapeQuotes, hq]]
      rw [quotesAllEscaped_cons, if_neg hq]
      by_cases hb : c = '\\'
      · rw [if_neg (fun h => escapeQuotes_head?_ne_quote rest h.2)]
        exact ih
      · rw [if_neg (fun h => hb h.1)]
        exact ih

/-- C10: `load_dummy_data.py` issues its `NP` and `EP` insert commands with
each double quote in a string value replaced by a backslash-escaped quote
before embedding (`value.replace('"', '\\"')`), so in the embedded value
every double quote is immediately preceded by a backslash and cannot
terminate the quoted argument. -/
theorem dummy_property_inserts_escape_quotes (node_id edge_id : Nat) (key value : PyStr) :
    npInsertCmd node_id key value
      = "insert NP(".toList ++ natChars node_id ++ ", \"".toList ++ key
          ++ "\", \"".toList ++ escapeQuotes value ++ "\");".toList ∧
    epInsertCmd edge_id key value
      = "insert EP(".toList ++ natChars edge_id ++ ", \"".toList ++ key
          ++ "\", \"".toList ++ escapeQuotes value ++ "\");".toList ∧
    quotesAllEscaped (escapeQuotes value) = true :=
  ⟨rfl, rfl, quotesAllEscaped_escapeQuotes value⟩

/-! ## Result-summary parsing (`query_movielens.py`)

`query_movielens.py` recovers the row count from a query response with
`result.get('resultInfo', '').split('#:')[1].split()[0]`.  `splitHashColon`
models Python `str.split('#:')`, `pySplitWs` models argumentless
`str.split()` (split on whitespace runs, dropping empty pieces). -/

/-- Prepend a character onto the first piece of a split result. -/
def consOnto (c : Char) : List PyStr → List PyStr
  | [] => [[c]]
  | h :: t => (c :: h) :: t

/-- Python `s.split('#:')`: the pieces of `s` between non-overlapping
occurrences of the two-character separator `#:`, scanned left to right. -/
def splitHashColon : PyStr → List PyStr
  | [] => [[]]
  | c :: rest =>
      if c = '#' ∧ rest.head? = some ':' then [] :: splitHashColon rest.tail
      else consOnto c (splitHashColon rest)
termination_by l => l.length
decreasing_by
  · simp [List.length_tail]
    omega
  · simp

/-- Whether `#:` occurs as a substring. -/
def hasHashColon : PyStr → Bool
  | [] => false
  | c :: rest => decide (c = '#' ∧ rest.head? = some ':') || hasHashColon rest

theorem dropWhileLengthLe {α : Type} (p : α → Bool) (l : List α) :
    (l.dropWhile p).length ≤ l.length := by
  induction l with
  | nil => simp
  | cons c t ih =>
    rw [List.dropWhile_cons]
    split
    · exact Nat.le_succ_of_le ih
    · simp

/-- Python `s.split()`: maximal runs of non-whitespace characters. -/
def pySplitWs : PyStr → List PyStr
  | [] => []
  | c :: rest =>
      if c.isWhitespace then pySplitWs rest
      else (c :: rest.takeWhile (fun x => !x.isWhitespace))
        :: pySplitWs (rest.dropWhile (fun x => !x.isWhitespace))
termination_by l => l.length
decreasing_by
  · simp
  · have := dropWhileLengthLe (fun x => !x.isWhitespace) rest
    simp only [List.length_cons]
    omega

/-- The count-extraction expression of `query_movielens.py`:
`s.split('#:')[1].split()[0]`. -/
def extractRowCount (s : PyStr) : PyStr :=
  (pySplitWs ((splitHashColon s).getD 1 [])).getD 0 []

/-- Modelled from the spec: the result-summary string
`"query result #: <n> etime[<ms>] #ofRules: <k>"` (spec §6, `execute`);
the reporting engine that produces it is not part of the repository. -/
def resultInfoText (n ms k : Nat) : PyStr :=
  "query result #: ".toList ++ natChars n ++ " etime[".toList ++ natChars ms
    ++ "] #ofRules: ".toList ++ natChars k

/-- The numeric value of a decimal digit string (how a reader recovers the
count from the extracted token). -/
def decimalVal (l : PyStr) : Nat :=
  l.foldl (fun a c => 10 * a + (c.toNat - 48)) 0

theorem splitHashColon_cons (c : Char) (rest : PyStr) :
    splitHashColon (c :: rest)
      = if c = '#' ∧ rest.head? = some ':' then [] :: splitHashColon rest.tail
        else consOnto c (splitHashColon rest) := by
  rw [splitHashColon]

theorem pySplitWs_cons (c : Char) (rest : PyStr) :
    pySplitWs (c :: rest)
      = if c.isWhitespace then pySplitWs rest
        else (c :: rest.takeWhile (fun x => !x.isWhitespace))
          :: pySplitWs (rest.dropWhile (fun x => !x.isWhitespace)) := by
  rw [pySplitWs]

theorem hasHashColon_eq_false_of_no_hash {x : PyStr} (hx : ∀ c ∈ x, c ≠ '#') :
    hasHashColon x = false := by
  induction x with
  | nil => rfl
  | cons c x' ih =>
    have hc : c ≠ '#' := hx c (by simp)
    simp only [hasHashColon, Bool.or_eq_false_iff]
    exact ⟨by simp [hc], ih (fun d hd => hx d (by simp [hd]))⟩

theorem hasHashColon_cons_of_ne {c : Char} (hc : c ≠ '#') (rest : PyStr) :
    hasHashColon (c :: rest) = hasHashColon rest := by
  simp [hasHashColon, hc]

theorem hasHashColon_append_of_no_hash {x : PyStr} (hx : ∀ c ∈ x, c ≠ '#') (y : PyStr) :
    hasHashColon (x ++ y) = hasHashColon y := by
  induction x with
  | nil => rfl
  | cons c x' ih =>
    have hc : c ≠ '#' := hx c (by simp)
    rw [List.cons_append, hasHashColon_cons_of_ne hc, ih (fun d hd => hx d (by simp [hd]))]

theorem hasHashColon_append_boundary {x y : PyStr} (hx : hasHashColon x = false)
    (hb : x.getLast? = some '#' → y.head? ≠ some ':') (hy : hasHashColon y = false) :
    hasHashColon (x ++ y) = false := by
  induction x with
  | nil => simpa using hy
  | cons c x' ih =>
    simp only [hasHashColon, Bool.or_eq_false_iff] at hx
    obtain ⟨h1, h2⟩ := hx
    simp only [List.cons_append, hasHashColon, Bool.or_eq_false_iff]
    constructor
    · cases x' with
      | nil =>
        simp only [decide_eq_false_iff_not]
        intro ⟨hch, hh⟩
        subst hch
        exact hb (by simp) (by simpa using hh)
      | cons d t =>
        simpa using h1
    · apply ih h2
      cases x' with
      | nil => intro h; simp at h
      | cons d t =>
        intro h
        exact hb (by rw [List.getLast?_cons_cons]; exact h)

theorem splitHashColon_of_no_sep {l : PyStr} (h : hasHashColon l = false) :
    splitHashColon l = [l] := by
  induction l with
  | nil => rw [splitHashColon]
  | cons c rest ih =>
    simp only [hasHashColon, Bool.or_eq_false_iff, decide_eq_false_iff_not] at h
    rw [splitHashColon_cons, if_neg h.1, ih h.2]
    rfl

theorem splitHashColon_append_sep {a : PyStr} (ha : hasHashColon a = false) (b : PyStr) :
    splitHashColon (a ++ '#' :: ':' :: b) = a :: splitHashColon b := by
  induction a with
  | nil =>
    rw [List.nil_append, splitHashColon_cons, if_pos (by simp)]
    rw [List.tail_cons]
  | cons c a' ih =>
    simp only [hasHashColon, Bool.or_eq_false_iff, decide_eq_false_iff_not] at ha
    obtain ⟨h1, h2⟩ := ha
    rw [List.cons_append, splitHashColon_cons, if_neg ?_, ih h2]
    · rfl
    · intro ⟨hch, hh⟩
      cases a' with
      | nil => simp at hh
      | cons d t =>
        rw [List.cons_append] at hh
        simp only [List.head?_cons, Option.some.injEq] at hh
        exact h1 ⟨hch, by simp [hh]⟩

theorem takeWhile_append_of_all {p : Char → Bool} {ds : PyStr} (h : ∀ c ∈ ds, p c = true)
    {y : Char} (hy : p y = false) (r : PyStr) :
    (ds ++ y :: r).takeWhile p = ds := by
  induction ds with
  | nil => simp [List.takeWhile_cons, hy]
  | cons d t ih =>
    simp only [List.cons_append, List.takeWhile_cons, h d (by simp), if_true]
    rw [ih (fun c hc => h c (by simp [hc]))]

theorem dropWhile_append_of_all {p : Char → Bool} {ds : PyStr} (h : ∀ c ∈ ds, p c = true)
    {y : Char} (hy : p y = false) (r : PyStr) :
    (ds ++ y :: r).dropWhile p = y :: r := by
  induction ds with
  | nil => simp [List.dropWhile_cons, hy]
  | cons d t ih =>
    simp only [List.cons_append, List.dropWhile_cons, h d (by simp), if_true]
    exact ih (fun c hc => h c (by simp [hc]))

theorem pySplitWs_token {tok : PyStr} (hne : tok ≠ [])
    (hnw : ∀ c ∈ tok, c.isWhitespace = false) (r : PyStr) :
    pySplitWs (tok ++ ' ' :: r) = tok :: pySplitWs r := by
  cases tok with
  | nil => exact absurd rfl hne
  | cons d ds =>
    have hd : d.isWhitespace = false := hnw d (by simp)
    have hall : ∀ c ∈ ds, (fun x => !x.isWhitespace) c = true := by
      intro c hc
      simp [hnw c (by simp [hc])]
    rw [List.cons_append, pySplitWs_cons, if_neg (by simp [hd])]
    rw [takeWhile_append_of_all hall (by simp) r, dropWhile_append_of_all hall (by simp) r]
    rw [pySplitWs_cons, if_pos (by decide)]

theorem natChars_no_hash (n : Nat) : ∀ c ∈ natChars n, c ≠ '#' :=
  fun c hc => isDigit_ne_hash (natChars_all_digits n c hc)

theorem decimalVal_natChars (n : Nat) : decimalVal (natChars n) = n := by
  have key : ∀ m : Nat, m < 10 → (Nat.digitChar m).toNat - 48 = m := by
    intro m hm
    interval_cases m <;> decide
  induction n using Nat.strong_induction_on with
  | _ n ih =>
    by_cases h : n < 10
    · rw [natChars_of_lt h]
      simp [decimalVal, key n h]
    · rw [natChars_of_ge h]
      simp only [decimalVal, List.foldl_append] at *
      rw [ih (n / 10) (Nat.div_lt_self (by omega) (by decide))]
      simp only [List.foldl_cons, List.foldl_nil]
      rw [key (n % 10) (Nat.mod_lt _ (by decide))]
      omega

/-- C3: splitting the result summary `"query result #: <n> etime[<ms>]
#ofRules: <k>"` on `#:`, taking the second piece and its first
whitespace-separated token — as `query_movielens.py` does — recovers exactly
the decimal rendering of the row count `n`, whose value is `n`. -/
theorem resultInfo_count_roundtrip (n ms k : Nat) :
    extractRowCount (resultInfoText n ms k) = natChars n
      ∧ decimalVal (natChars n) = n := by
  constructor
  · have hsplit :
        resultInfoText n ms k
          = "query result ".toList
              ++ '#' :: ':' :: ' '
              :: (natChars n ++ ' '
                  :: ("etime[".toList
                      ++ (natChars ms ++ ("] #ofRules: ".toList ++ natChars k)))) := by
      show "query result #: ".toList ++ natChars n ++ " etime[".toList ++ natChars ms
          ++ "] #ofRules: ".toList ++ natChars k = _
      rw [show "query result #: ".toList
            = "query result ".toList ++ ['#', ':', ' '] from by decide]
      rw [show " etime[".toList = [' '] ++ "etime[".toList from by decide]
      simp [List.append_assoc]
    have hafter :
        hasHashColon
          (' ' :: (natChars n ++ ' '
            :: ("etime[".toList
                ++ (natChars ms ++ ("] #ofRules: ".toList ++ natChars k))))) = false := by
      rw [hasHashColon_cons_of_ne (by decide),
        hasHashColon_append_of_no_hash (natChars_no_hash n),
        hasHashColon_cons_of_ne (by decide),
        hasHashColon_append_of_no_hash (by decide),
        hasHashColon_append_of_no_hash (natChars_no_hash ms)]
      apply hasHashColon_append_boundary (by decide)
      · intro h
        exact absurd h (by decide)
      · exact hasHashColon_eq_false_of_no_hash (natChars_no_hash k)
    rw [extractRowCount, hsplit,
      splitHashColon_append_sep (by decide), splitHashColon_of_no_sep hafter,
      List.getD_cons_succ, List.getD_cons_zero,
      pySplitWs_cons, if_pos (by decide),
      pySplitWs_token (natChars_ne_nil n)
        (fun c hc => isDigit_not_whitespace (natChars_all_digits n c hc)),
      List.getD_cons_zero]
  · exact decimalVal_natChars n

/-! ## `generate_dummy_data.py`

The generator draws from one global `random` stream.  Draws are modelled by an
abstract entropy stream `s : Nat → Nat` consumed at an advancing position;
`random.randint(lo, hi)` clamps a raw draw into `[lo, hi]` (both inclusive),
`random.random() < 0.7` is a draw tested against 7 of 10 outcomes.  Property
values consume draws (positions advance past them) but no claim depends on
them, so edge records carry only id, endpoints and label. -/

/-- A generated node: `{"id": ..., "label": ...}` (property values are not
tracked). -/
structure DNode where
  id : Nat
  label : String

/-- A generated edge: `{"id": ..., "from": ..., "to": ..., "label": ...}`
(property values are not tracked). -/
structure DEdge where
  id : Nat
  src : Nat
  dst : Nat
  label : String

/-- `random.randint(lo, hi)` applied to one raw draw `r`: a value in
`[lo, hi]`, both endpoints inclusive. -/
def randint (lo hi r : Nat) : Nat := lo + r % (hi + 1 - lo)

/-- Result of one generator loop: the edges it emitted, the entropy position
after it, and the next free edge id. -/
structure GenOut where
  edges : List DEdge
  pos : Nat
  nextId : Nat

/-- `for person_id in range(1, 301): if random.random() < 0.7: ...` — one
`works_at` edge per employed person, to `randint(301, 400)`; the 4 property
draws advance the position. -/
def worksAtLoop (s : Nat → Nat) : List Nat → Nat → Nat → GenOut
  | [], p, eid => ⟨[], p, eid⟩
  | pid :: rest, p, eid =>
      if s p % 10 < 7 then
        let r := worksAtLoop s rest (p + 6) (eid + 1)
        ⟨⟨eid, pid, randint 301 400 (s (p + 1)), "works_at"⟩ :: r.edges, r.pos, r.nextId⟩
      else
        worksAtLoop s rest (p + 1) eid

/-- Inner loop of the `knows` phase: `num_connections` attempts, each drawing
`friend_id = randint(1, 300)` and emitting an edge only when
`friend_id != person_id` (the 3 property draws advance the position). -/
def knowsInner (s : Nat → Nat) (pid : Nat) : Nat → Nat → Nat → GenOut
  | 0, p, eid => ⟨[], p, eid⟩
  | m + 1, p, eid =>
      let fid := randint 1 300 (s p)
      if fid ≠ pid then
        let r := knowsInner s pid m (p + 4) (eid + 1)
        ⟨⟨eid, pid, fid, "knows"⟩ :: r.edges, r.pos, r.nextId⟩
      else
        knowsInner s pid m (p + 1) eid

/-- `for person_id in range(1, 301): num_connections = randint(2, 10); ...` -/
def knowsLoop (s : Nat → Nat) : List Nat → Nat → Nat → GenOut
  | [], p, eid => ⟨[], p, eid⟩
  | pid :: rest, p, eid =>
      let r₁ := knowsInner s pid (randint 2 10 (s p)) (p + 1) eid
      let r₂ := knowsLoop s rest r₁.pos r₁.nextId
      ⟨r₁.edges ++ r₂.edges, r₂.pos, r₂.nextId⟩

/-- Inner loop of the `bought` phase: `num_purchases` edges, each to
`randint(401, 500)` (the 4 property draws advance the position). -/
def boughtInner (s : Nat → Nat) (pid : Nat) : Nat → Nat → Nat → GenOut
  | 0, p, eid => ⟨[], p, eid⟩
  | m + 1, p, eid =>
      let r := boughtInner s pid m (p + 5) (eid + 1)
      ⟨⟨eid, pid, randint 401 500 (s p), "bought"⟩ :: r.edges, r.pos, r.nextId⟩

/-- `for person_id in range(1, 301): num_purchases = randint(1, 5); ...` -/
def boughtLoop (s : Nat → Nat) : List Nat → Nat → Nat → GenOut
  | [], p, eid => ⟨[], p, eid⟩
  | pid :: rest, p, eid =>
      let r₁ := boughtInner s pid (randint 1 5 (s p)) (p + 1) eid
      let r₂ := boughtLoop s rest r₁.pos r₁.nextId
      ⟨r₁.edges ++ r₂.edges, r₂.pos, r₂.nextId⟩

/-- Inner loop of the `produces` phase: `num_products` edges, each to
`randint(401, 500)` (the 2 property draws advance the position). -/
def producesInner (s : Nat → Nat) (cid : Nat) : Nat → Nat → Nat → GenOut
  | 0, p, eid => ⟨[], p, eid⟩
  | m + 1, p, eid =>
      let r := producesInner s cid m (p + 3) (eid + 1)
      ⟨⟨eid, cid, randint 401 500 (s p), "produces"⟩ :: r.edges, r.pos, r.nextId⟩

/-- `for company_id in range(301, 401): num_products = randint(1, 5); ...` -/
def producesLoop (s : Nat → Nat) : List Nat → Nat → Nat → GenOut
  | [], p, eid => ⟨[], p, eid⟩
  | cid :: rest, p, eid =>
      let r₁ := producesInner s cid (randint 1 5 (s p)) (p + 1) eid
      let r₂ := producesLoop s rest r₁.pos r₁.nextId
      ⟨r₁.edges ++ r₂.edges, r₂.pos, r₂.nextId⟩

/-- The node list of `generate_dummy_data.py`: Person ids 1–300, Company ids
301–400, Product ids 401–500, in generation order. -/
def genNodes : List DNode :=
  (List.range' 1 300).map (fun i => ⟨i, "Person"⟩)
    ++ (List.range' 301 100).map (fun i => ⟨i, "Company"⟩)
    ++ (List.range' 401 100).map (fun i => ⟨i, "Product"⟩)

/-- The edge list of `generate_dummy_data.py`: the four phases in script
order, `edge_id` starting at 1000 and incremented once per emitted edge.
`p₀` is the entropy position after node-property generation. -/
def genEdges (s : Nat → Nat) (p₀ : Nat) : List DEdge :=
  let r₁ := worksAtLoop s (List.range' 1 300) p₀ 1000
  let r₂ := knowsLoop s (List.range' 1 300) r₁.pos r₁.nextId
  let r₃ := boughtLoop s (List.range' 1 300) r₂.pos r₂.nextId
  let r₄ := producesLoop s (List.range' 301 100) r₃.pos r₃.nextId
  r₁.edges ++ r₂.edges ++ r₃.edges ++ r₄.edges

/-- The edge schema declared by `load_dummy_data.py` (step 4):
label, from-label, to-label. -/
def dummyEdgeSchema : List (String × String × String) :=
  [("works_at", "Person", "Company"), ("knows", "Person", "Person"),
   ("bought", "Person", "Product"), ("produces", "Company", "Product")]

/-- The ids of generated nodes carrying a given label. -/
def nodeIdsWithLabel (lab : String) : List Nat :=
  (genNodes.filter (fun nd => nd.label == lab)).map (fun nd => nd.id)

/-- Whether an edge's label is declared in the dummy edge schema and both its
endpoints are ids of generated nodes whose labels match the schema's declared
endpoint labels. -/
def edgeRespectsSchema (e : DEdge) : Bool :=
  ((dummyEdgeSchema.find? (fun sch => sch.1 == e.label)).map
    (fun sch => decide (e.src ∈ nodeIdsWithLabel sch.2.1
      ∧ e.dst ∈ nodeIdsWithLabel sch.2.2))).getD false

theorem randint_mem_range' (lo hi : Nat) (h : lo ≤ hi) (r : Nat) :
    randint lo hi r ∈ List.range' lo (hi + 1 - lo) := by
  rw [List.mem_range'_1]
  have hm : r % (hi + 1 - lo) < hi + 1 - lo := Nat.mod_lt _ (by omega)
  unfold randint
  omega

theorem nodeIdsWithLabel_person : nodeIdsWithLabel "Person" = List.range' 1 300 := by
  simp [nodeIdsWithLabel, genNodes, List.filter_append, List.filter_map, Function.comp_def]

theorem nodeIdsWithLabel_company : nodeIdsWithLabel "Company" = List.range' 301 100 := by
  simp [nodeIdsWithLabel, genNodes, List.filter_append, List.filter_map, Function.comp_def]

theorem nodeIdsWithLabel_product : nodeIdsWithLabel "Product" = List.range' 401 100 := by
  simp [nodeIdsWithLabel, genNodes, List.filter_append, List.filter_map, Function.comp_def]

theorem works_at_edge_ok {src dst : Nat} (h1 : src ∈ List.range' 1 300)
    (h2 : dst ∈ List.range' 301 100) (eid : Nat) :
    edgeRespectsSchema ⟨eid, src, dst, "works_at"⟩ = true := by
  simp only [edgeRespectsSchema]
  rw [show dummyEdgeSchema.find?
        (fun sch => sch.1 == (DEdge.mk eid src dst "works_at").label)
      = some ("works_at", "Person", "Company") from rfl]
  simp [nodeIdsWithLabel_person, nodeIdsWithLabel_company, h1, h2]

theorem knows_edge_ok {src dst : Nat} (h1 : src ∈ List.range' 1 300)
    (h2 : dst ∈ List.range' 1 300) (eid : Nat) :
    edgeRespectsSchema ⟨eid, src, dst, "knows"⟩ = true := by
  simp only [edgeRespectsSchema]
  rw [show dummyEdgeSchema.find?
        (fun sch => sch.1 == (DEdge.mk eid src dst "knows").label)
      = some ("knows", "Person", "Person") from rfl]
  simp [nodeIdsWithLabel_person, h1, h2]

theorem bought_edge_ok {src dst : Nat} (h1 : src ∈ List.range' 1 300)
    (h2 : dst ∈ List.range' 401 100) (eid : Nat) :
    edgeRespectsSchema ⟨eid, src, dst, "bought"⟩ = true := by
  simp only [edgeRespectsSchema]
  rw [show dummyEdgeSchema.find?
        (fun sch => sch.1 == (DEdge.mk eid src dst "bought").label)
      = some ("bought", "Person", "Product") from rfl]
  simp [nodeIdsWithLabel_person, nodeIdsWithLabel_product, h1, h2]

theorem produces_edge_ok {src dst : Nat} (h1 : src ∈ List.range' 301 100)
    (h2 : dst ∈ List.range' 401 100) (eid : Nat) :
    edgeRespectsSchema ⟨eid, src, dst, "produces"⟩ = true := by
  simp only [edgeRespectsSchema]
  rw [show dummyEdgeSchema.find?
        (fun sch => sch.1 == (DEdge.mk eid src dst "produces").label)
      = some ("produces", "Company", "Product") from rfl]
  simp [nodeIdsWithLabel_company, nodeIdsWithLabel_product, h1, h2]

theorem worksAtLoop_all_ok (s : Nat → Nat) (ids : List Nat)
    (hids : ∀ i ∈ ids, i ∈ List.range' 1 300) :
    ∀ p eid, (worksAtLoop s ids p eid).edges.all edgeRespectsSchema = true := by
  induction ids with
  | nil => intro p eid; simp [worksAtLoop]
  | cons pid rest ih =>
    intro p eid
    have hpid : pid ∈ List.range' 1 300 := hids pid (by simp)
    have hrest : ∀ i ∈ rest, i ∈ List.range' 1 300 := fun i hi => hids i (by simp [hi])
    by_cases hc : s p % 10 < 7
    · simp only [worksAtLoop, if_pos hc, List.all_cons, Bool.and_eq_true]
      exact ⟨works_at_edge_ok hpid (randint_mem_range' 301 400 (by omega) _) eid, ih hrest (p + 6) (eid + 1)⟩
    · simp only [worksAtLoop, if_neg hc]
      exact ih hrest (p + 1) eid

theorem knowsInner_all_ok (s : Nat → Nat) {pid : Nat} (hpid : pid ∈ List.range' 1 300) :
    ∀ m p eid, (knowsInner s pid m p eid).edges.all edgeRespectsSchema = true := by
  intro m
  induction m with
  | zero => intro p eid; simp [knowsInner]
  | succ m ih =>
    intro p eid
    by_cases hc : randint 1 300 (s p) ≠ pid
    · simp only [knowsInner, if_pos hc, List.all_cons, Bool.and_eq_true]
      exact ⟨knows_edge_ok hpid (randint_mem_range' 1 300 (by omega) _) eid, ih (p + 4) (eid + 1)⟩
    · simp only [knowsInner, if_neg hc]
      exact ih (p + 1) eid

theorem knowsLoop_all_ok (s : Nat → Nat) (ids : List Nat)
    (hids : ∀ i ∈ ids, i ∈ List.range' 1 300) :
    ∀ p eid, (knowsLoop s ids p eid).edges.all edgeRespectsSchema = true := by
  induction ids with
  | nil => intro p eid; simp [knowsLoop]
  | cons pid rest ih =>
    intro p eid
    simp only [knowsLoop, List.all_append, Bool.and_eq_true]
    exact ⟨knowsInner_all_ok s (hids pid (by simp)) _ (p + 1) eid,
      ih (fun i hi => hids i (by simp [hi])) _ _⟩

theorem boughtInner_all_ok (s : Nat → Nat) {pid : Nat} (hpid : pid ∈ List.range' 1 300) :
    ∀ m p eid, (boughtInner s pid m p eid).edges.all edgeRespectsSchema = true := by
  intro m
  induction m with
  | zero => intro p eid; simp [boughtInner]
  | succ m ih =>
    intro p eid
    simp only [boughtInner, List.all_cons, Bool.and_eq_true]
    exact ⟨bought_edge_ok hpid (randint_mem_range' 401 500 (by omega) _) eid, ih (p + 5) (eid + 1)⟩

theorem boughtLoop_all_ok (s : Nat → Nat) (ids : List Nat)
    (hids : ∀ i ∈ ids, i ∈ List.range' 1 300) :
    ∀ p eid, (boughtLoop s ids p eid).edges.all edgeRespectsSchema = true := by
  induction ids with
  | nil => intro p eid; simp [boughtLoop]
  | cons pid rest ih =>
    intro p eid
    simp only [boughtLoop, List.all_append, Bool.and_eq_true]
    exact ⟨boughtInner_all_ok s (hids pid (by simp)) _ (p + 1) eid,
      ih (fun i hi => hids i (by simp [hi])) _ _⟩

theorem producesInner_all_ok (s : Nat → Nat) {cid : Nat} (hcid : cid ∈ List.range' 301 100) :
    ∀ m p eid, (producesInner s cid m p eid).edges.all edgeRespectsSchema = true := by
  intro m
  induction m with
  | zero => intro p eid; simp [producesInner]
  | succ m ih =>
    intro p eid
    simp only [producesInner, List.all_cons, Bool.and_eq_true]
    exact ⟨produces_edge_ok hcid (randint_mem_range' 401 500 (by omega) _) eid, ih (p + 3) (eid + 1)⟩

theorem producesLoop_all_ok (s : Nat → Nat) (ids : List Nat)
    (hids : ∀ i ∈ ids, i ∈ List.range' 301 100) :
    ∀ p eid, (producesLoop s ids p eid).edges.all edgeRespectsSchema = true := by
  induction ids with
  | nil => intro p eid; simp [producesLoop]
  | cons cid rest ih =>
    intro p eid
    simp only [producesLoop, List.all_append, Bool.and_eq_true]
    exact ⟨producesInner_all_ok s (hids cid (by simp)) _ (p + 1) eid,
      ih (fun i hi => hids i (by simp [hi])) _ _⟩

/-- C5: every edge produced by `generate_dummy_data.py` has endpoints whose
labels match the edge schema declared by `load_dummy_data.py`: `works_at`
from a Person id (1–300) to a Company id (301–400), `knows` between Person
ids, `bought` from a Person id to a Product id (401–500), `produces` from a
Company id to a Product id. -/
theorem dummy_edges_respect_schema (s : Nat → Nat) (p₀ : Nat) :
    (genEdges s p₀).all edgeRespectsSchema = true := by
  simp only [genEdges, List.all_append, Bool.and_eq_true]
  refine ⟨⟨⟨?_, ?_⟩, ?_⟩, ?_⟩
  · exact worksAtLoop_all_ok s _ (fun i hi => hi) _ _
  · exact knowsLoop_all_ok s _ (fun i hi => hi) _ _
  · exact boughtLoop_all_ok s _ (fun i hi => hi) _ _
  · exact producesLoop_all_ok s _ (fun i hi => hi) _ _

/-- The edges `es` carry exactly the consecutive ids `a, a+1, ...`, and `b`
is the next free id after them. -/
def ConsecIds (es : List DEdge) (a b : Nat) : Prop :=
  es.map (fun e => e.id) = List.range' a es.length ∧ b = a + es.length

theorem consecIds_nil (a : Nat) : ConsecIds [] a a :=
  ⟨rfl, rfl⟩

theorem consecIds_cons {es : List DEdge} {b eid : Nat} (e : DEdge) (he : e.id = eid)
    (h : ConsecIds es (eid + 1) b) : ConsecIds (e :: es) eid b := by
  obtain ⟨h1, h2⟩ := h
  refine ⟨?_, by simp [List.length_cons]; omega⟩
  simp only [List.map_cons, List.length_cons, h1, he]
  rw [List.range'_succ]

theorem consecIds_append {es₁ es₂ : List DEdge} {a b c : Nat}
    (h₁ : ConsecIds es₁ a b) (h₂ : ConsecIds es₂ b c) : ConsecIds (es₁ ++ es₂) a c := by
  obtain ⟨h11, h12⟩ := h₁
  obtain ⟨h21, h22⟩ := h₂
  subst h12
  refine ⟨?_, by simp [List.length_append]; omega⟩
  rw [List.map_append, h11, h21, List.length_append, List.range'_append_1,
    Nat.add_comm es₂.length es₁.length]

theorem worksAtLoop_consec (s : Nat → Nat) (ids : List Nat) :
    ∀ p eid, ConsecIds (worksAtLoop s ids p eid).edges eid (worksAtLoop s ids p eid).nextId := by
  induction ids with
  | nil => intro p eid; exact consecIds_nil eid
  | cons pid rest ih =>
    intro p eid
    by_cases hc : s p % 10 < 7
    · simp only [worksAtLoop, if_pos hc]
      exact consecIds_cons _ rfl (ih (p + 6) (eid + 1))
    · simp only [worksAtLoop, if_neg hc]
      exact ih (p + 1) eid

theorem knowsInner_consec (s : Nat → Nat) (pid : Nat) :
    ∀ m p eid,
      ConsecIds (knowsInner s pid m p eid).edges eid (knowsInner s pid m p eid).nextId := by
  intro m
  induction m with
  | zero => intro p eid; exact consecIds_nil eid
  | succ m ih =>
    intro p eid
    by_cases hc : randint 1 300 (s p) ≠ pid
    · simp only [knowsInner, if_pos hc]
      exact consecIds_cons _ rfl (ih (p + 4) (eid + 1))
    · simp only [knowsInner, if_neg hc]
      exact ih (p + 1) eid

theorem knowsLoop_consec (s : Nat → Nat) (ids : List Nat) :
    ∀ p eid, ConsecIds (knowsLoop s ids p eid).edges eid (knowsLoop s ids p eid).nextId := by
  induction ids with
  | nil => intro p eid; exact consecIds_nil eid
  | cons pid rest ih =>
    intro p eid
    simp only [knowsLoop]
    exact consecIds_append (knowsInner_consec s pid _ (p + 1) eid) (ih _ _)

theorem boughtInner_consec (s : Nat → Nat) (pid : Nat) :
    ∀ m p eid,
      ConsecIds (boughtInner s pid m p eid).edges eid (boughtInner s pid m p eid).nextId := by
  intro m
  induction m with
  | zero => intro p eid; exact consecIds_nil eid
  | succ m ih =>
    intro p eid
    simp only [boughtInner]
    exact consecIds_cons _ rfl (ih (p + 5) (eid + 1))

theorem boughtLoop_consec (s : Nat → Nat) (ids : List Nat) :
    ∀ p eid, ConsecIds (boughtLoop s ids p eid).edges eid (boughtLoop s ids p eid).nextId := by
  induction ids with
  | nil => intro p eid; exact consecIds_nil eid
  | cons pid rest ih =>
    intro p eid
    simp only [boughtLoop]
    exact consecIds_append (boughtInner_consec s pid _ (p + 1) eid) (ih _ _)

theorem producesInner_consec (s : Nat → Nat) (cid : Nat) :
    ∀ m p eid,
      ConsecIds (producesInner s cid m p eid).edges eid (producesInner s cid m p eid).nextId := by
  intro m
  induction m with
  | zero => intro p eid; exact consecIds_nil eid
  | succ m ih =>
    intro p eid
    simp only [producesInner]
    exact consecIds_cons _ rfl (ih (p + 3) (eid + 1))

theorem producesLoop_consec (s : Nat → Nat) (ids : List Nat) :
    ∀ p eid, ConsecIds (producesLoop s ids p eid).edges eid (producesLoop s ids p eid).nextId := by
  induction ids with
  | nil => intro p eid; exact consecIds_nil eid
  | cons cid rest ih =>
    intro p eid
    simp only [producesLoop]
    exact consecIds_append (producesInner_consec s cid _ (p + 1) eid) (ih _ _)

theorem genEdges_consec (s : Nat → Nat) (p₀ : Nat) :
    ConsecIds (genEdges s p₀) 1000
      (1000 + (genEdges s p₀).length) := by
  have h : ConsecIds (genEdges s p₀) 1000 _ :=
    consecIds_append (consecIds_append (consecIds_append
      (worksAtLoop_consec s (List.range' 1 300) p₀ 1000)
      (knowsLoop_consec s (List.range' 1 300) _ _))
      (boughtLoop_consec s (List.range' 1 300) _ _))
      (producesLoop_consec s (List.range' 301 100) _ _)
  exact ⟨h.1, rfl⟩

set_option maxRecDepth 8000 in
theorem genNodes_map_id : genNodes.map (fun nd => nd.id) = List.range' 1 500 := by
  decide

/-- C7: in the dataset produced by `generate_dummy_data.py`, node ids are
exactly the pairwise-distinct integers 1–500, edge ids are the consecutive
pairwise-distinct integers from 1000 on (one per emitted edge), and the two
id sets are disjoint — the shared-id-space uniqueness invariant holds. -/
theorem dummy_ids_unique (s : Nat → Nat) (p₀ : Nat) :
    genNodes.map (fun nd => nd.id) = List.range' 1 500
    ∧ (genNodes.map (fun nd => nd.id)).Nodup
    ∧ (genEdges s p₀).map (fun e => e.id) = List.range' 1000 (genEdges s p₀).length
    ∧ ((genEdges s p₀).map (fun e => e.id)).Nodup
    ∧ (genNodes.map (fun nd => nd.id)) ∩ ((genEdges s p₀).map (fun e => e.id)) = [] := by
  have hn := genNodes_map_id
  have he := (genEdges_consec s p₀).1
  refine ⟨hn, ?_, he, ?_, ?_⟩
  · rw [hn]
    exact List.nodup_range' 1 500
  · rw [he]
    exact List.nodup_range' 1000 _
  · rw [hn, he]
    rw [List.eq_nil_iff_forall_not_mem]
    intro i hi
    rw [List.mem_inter_iff, List.mem_range'_1, List.mem_range'_1] at hi
    omega

/-! ## `load_movielens_data.py`

The loader reads movies (a dict keyed by original `movieId`, each with its
genre list), filters the first ratings rows to those whose `movieId` was
loaded, then assigns dense node ids 1, 2, ... — movies first, then the users
seen in the filtered ratings, then the genres — and issues `insert N` /
`insert E` commands.  Commands are modelled structurally (`MLCmd`); the
`insert NP`/`EP` property commands are not modelled since they create no node
or edge ids and no claim concerns them.  Dict/set iteration order is the list
order of the model (Python's `sorted(all_genres)` permutes only). -/

/-- One parsed `movies.csv` row kept by `load_movies`: the original id and
the genre list. -/
structure MovieRec where
  mid : Nat
  genres : List String

/-- `load_ratings`: keep a raw `(userId, movieId)` row only when its movie id
is among the loaded movie ids (`if movie_id in movie_ids`). -/
def loadRatings (movieIds : List Nat) (raw : List (Nat × Nat)) : List (Nat × Nat) :=
  raw.filter (fun r => decide (r.2 ∈ movieIds))

/-- `users = set(r['userId'] for r in ratings)`. -/
def mlUsers (ratings : List (Nat × Nat)) : List Nat :=
  (ratings.map (fun r => r.1)).dedup

/-- `all_genres`: the set of genres over all loaded movies. -/
def mlGenres (movies : List MovieRec) : List String :=
  ((movies.map (fun m => m.genres)).flatten).dedup

/-- Index of the first occurrence of `x` (the position a key receives when a
Python dict is built by iterating and assigning consecutive ids). -/
def idxOf {α : Type} [DecidableEq α] (x : α) : List α → Nat
  | [] => 0
  | y :: rest => if y = x then 0 else 1 + idxOf x rest

/-- `movie_id_map`: movies get node ids `1 .. len(movies)` in order. -/
def movieNodeId (movies : List MovieRec) (k : Nat) : Nat :=
  1 + idxOf k (movies.map (fun m => m.mid))

/-- `user_id_map`: users get the node ids after the movies. -/
def userNodeId (movies : List MovieRec) (users : List Nat) (u : Nat) : Nat :=
  1 + movies.length + idxOf u users

/-- `genre_id_map`: genres get the node ids after movies and users. -/
def genreNodeId (movies : List MovieRec) (users : List Nat) (genres : List String)
    (g : String) : Nat :=
  1 + movies.length + users.length + idxOf g genres

/-- An `insert N(...)` or `insert E(...)` command issued over `/execute`. -/
inductive MLCmd where
  | insN (id : Nat) (label : String)
  | insE (id src dst : Nat) (label : String)

/-- Step 11: one `insert E(edge_id, user, movie, "RATED")` per filtered
rating, `edge_id` incremented per edge. -/
def ratedCmdsAux (movies : List MovieRec) (users : List Nat) :
    List (Nat × Nat) → Nat → List MLCmd
  | [], _ => []
  | r :: rest, eid =>
      .insE eid (userNodeId movies users r.1) (movieNodeId movies r.2) "RATED"
        :: ratedCmdsAux movies users rest (eid + 1)

/-- Step 12, inner loop: one `insert E(edge_id, movie, genre, "HAS_GENRE")`
per genre of one movie. -/
def genreEdgeCmdsOf (movies : List MovieRec) (users : List Nat) (genres : List String)
    (mmid : Nat) : List String → Nat → List MLCmd
  | [], _ => []
  | g :: gs, eid =>
      .insE eid (movieNodeId movies mmid) (genreNodeId movies users genres g) "HAS_GENRE"
        :: genreEdgeCmdsOf movies users genres mmid gs (eid + 1)

/-- Step 12: `HAS_GENRE` edges for every movie, continuing the edge-id
counter. -/
def hasGenreCmdsAux (movies : List MovieRec) (users : List Nat) (genres : List String) :
    List MovieRec → Nat → List MLCmd
  | [], _ => []
  | m :: rest, eid =>
      genreEdgeCmdsOf movies users genres m.mid m.genres eid
        ++ hasGenreCmdsAux movies users genres rest (eid + m.genres.length)

/-- The filtered ratings of one run. -/
def mlRatings (movies : List MovieRec) (raw : List (Nat × Nat)) : List (Nat × Nat) :=
  loadRatings (movies.map (fun m => m.mid)) raw

/-- The node ids inserted for movies (step 8). -/
def mlMovieNodeIds (movies : List MovieRec) : List Nat :=
  movies.map (fun m => movieNodeId movies m.mid)

/-- The node ids inserted for users (step 9). -/
def mlUserNodeIds (movies : List MovieRec) (users : List Nat) : List Nat :=
  users.map (fun u => userNodeId movies users u)

/-- The node ids inserted for genres (step 10). -/
def mlGenreNodeIds (movies : List MovieRec) (users : List Nat) (genres : List String) :
    List Nat :=
  genres.map (fun g => genreNodeId movies users genres g)

/-- Steps 8–10: all `insert N` commands of the run, in issue order. -/
def mlNodeCmds (movies : List MovieRec) (raw : List (Nat × Nat)) : List MLCmd :=
  let users := mlUsers (mlRatings movies raw)
  ((mlMovieNodeIds movies).map (fun i => MLCmd.insN i "Movie"))
    ++ ((mlUserNodeIds movies users).map (fun i => MLCmd.insN i "User"))
    ++ ((mlGenreNodeIds movies users (mlGenres movies)).map (fun i => MLCmd.insN i "Genre"))

/-- Step 11's `RATED` edge commands of the run. -/
def mlRatedCmds (movies : List MovieRec) (raw : List (Nat × Nat)) : List MLCmd :=
  ratedCmdsAux movies (mlUsers (mlRatings movies raw)) (mlRatings movies raw) 1

/-- Step 12's `HAS_GENRE` edge commands of the run. -/
def mlHasGenreCmds (movies : List MovieRec) (raw : List (Nat × Nat)) : List MLCmd :=
  hasGenreCmdsAux movies (mlUsers (mlRatings movies raw)) (mlGenres movies) movies
    (1 + (mlRatings movies raw).length)

/-- The full command sequence of one run: all node inserts (steps 8–10),
then all edge inserts (steps 11–12). -/
def mlRun (movies : List MovieRec) (raw : List (Nat × Nat)) : List MLCmd :=
  mlNodeCmds movies raw ++ (mlRatedCmds movies raw ++ mlHasGenreCmds movies raw)

/-- Checks, scanning a command sequence in order, that every `insert E`
references only node ids for which an `insert N` occurred earlier. -/
def coveredSoFar (seen : List Nat) : List MLCmd → Bool
  | [] => true
  | .insN i _ :: rest => coveredSoFar (i :: seen) rest
  | .insE _ src dst _ :: rest =>
      decide (src ∈ seen) && decide (dst ∈ seen) && coveredSoFar seen rest

/-- Whether a command is an `insert E` from a node id in `srcIds` to a node
id in `dstIds` with the given label. -/
def edgeConnects (srcIds dstIds : List Nat) (lab : String) : MLCmd → Bool
  | .insE _ src dst l => decide (src ∈ srcIds) && decide (dst ∈ dstIds) && (l == lab)
  | .insN _ _ => false

theorem coveredSoFar_ns (ids : List Nat) (lab : String) :
    ∀ (seen : List Nat) (rest : List MLCmd),
      coveredSoFar seen ((ids.map (fun i => MLCmd.insN i lab)) ++ rest)
        = coveredSoFar (ids.reverse ++ seen) rest := by
  induction ids with
  | nil => intro seen rest; rfl
  | cons i t ih =>
    intro seen rest
    simp only [List.map_cons, List.cons_append, coveredSoFar, List.append_eq]
    rw [ih (i :: seen) rest]
    simp [List.append_assoc]

theorem coveredSoFar_append_covered {seen : List Nat} {l₁ l₂ : List MLCmd}
    (h : ∀ c ∈ l₁, ∃ i s d lab, c = MLCmd.insE i s d lab ∧ s ∈ seen ∧ d ∈ seen) :
    coveredSoFar seen (l₁ ++ l₂) = coveredSoFar seen l₂ := by
  induction l₁ with
  | nil => rfl
  | cons c t ih =>
    obtain ⟨i, s', d, lab, hc, hs, hd⟩ := h c (by simp)
    subst hc
    simp only [List.cons_append, coveredSoFar, decide_eq_true hs, decide_eq_true hd,
      Bool.true_and]
    exact ih (fun c hc => h c (by simp [hc]))

theorem ratedCmdsAux_shape (movies : List MovieRec) (users : List Nat)
    (rl : List (Nat × Nat)) (hrl : ∀ r ∈ rl, r.1 ∈ users ∧ r.2 ∈ movies.map (fun m => m.mid)) :
    ∀ eid c, c ∈ ratedCmdsAux movies users rl eid →
      ∃ i u k, c = MLCmd.insE i (userNodeId movies users u) (movieNodeId movies k) "RATED"
        ∧ u ∈ users ∧ k ∈ movies.map (fun m => m.mid) := by
  induction rl with
  | nil => intro eid c hc; simp [ratedCmdsAux] at hc
  | cons r rest ih =>
    intro eid c hc
    simp only [ratedCmdsAux, List.mem_cons] at hc
    rcases hc with hc | hc
    · exact ⟨eid, r.1, r.2, hc, (hrl r (by simp)).1, (hrl r (by simp)).2⟩
    · exact ih (fun r' hr' => hrl r' (by simp [hr'])) (eid + 1) c hc

theorem genreEdgeCmdsOf_shape (movies : List MovieRec) (users : List Nat)
    (genres : List String) (mmid : Nat) (gs : List String) (hgs : ∀ g ∈ gs, g ∈ genres)
    (hm : mmid ∈ movies.map (fun m => m.mid)) :
    ∀ eid c, c ∈ genreEdgeCmdsOf movies users genres mmid gs eid →
      ∃ i k g, c = MLCmd.insE i (movieNodeId movies k) (genreNodeId movies users genres g)
          "HAS_GENRE"
        ∧ k ∈ movies.map (fun m => m.mid) ∧ g ∈ genres := by
  induction gs with
  | nil => intro eid c hc; simp [genreEdgeCmdsOf] at hc
  | cons g gs' ih =>
    intro eid c hc
    simp only [genreEdgeCmdsOf, List.mem_cons] at hc
    rcases hc with hc | hc
    · exact ⟨eid, mmid, g, hc, hm, hgs g (by simp)⟩
    · exact ih (fun g' hg' => hgs g' (by simp [hg'])) (eid + 1) c hc

theorem hasGenreCmdsAux_shape (movies : List MovieRec) (users : List Nat)
    (genres : List String) (ml : List MovieRec)
    (hml : ∀ m ∈ ml, m.mid ∈ movies.map (fun mv => mv.mid) ∧ ∀ g ∈ m.genres, g ∈ genres) :
    ∀ eid c, c ∈ hasGenreCmdsAux movies users genres ml eid →
      ∃ i k g, c = MLCmd.insE i (movieNodeId movies k) (genreNodeId movies users genres g)
          "HAS_GENRE"
        ∧ k ∈ movies.map (fun mv => mv.mid) ∧ g ∈ genres := by
  induction ml with
  | nil => intro eid c hc; simp [hasGenreCmdsAux] at hc
  | cons m rest ih =>
    intro eid c hc
    simp only [hasGenreCmdsAux, List.mem_append] at hc
    rcases hc with hc | hc
    · exact genreEdgeCmdsOf_shape movies users genres m.mid m.genres
        (hml m (by simp)).2 (hml m (by simp)).1 eid c hc
    · exact ih (fun m' hm' => hml m' (by simp [hm'])) _ c hc

theorem mlRatings_endpoints (movies : List MovieRec) (raw : List (Nat × Nat)) :
    ∀ r ∈ mlRatings movies raw,
      r.1 ∈ mlUsers (mlRatings movies raw) ∧ r.2 ∈ movies.map (fun m => m.mid) := by
  intro r hr
  constructor
  · exact List.mem_dedup.mpr (List.mem_map_of_mem (fun x => x.1) hr)
  · have := List.mem_filter.mp hr
    simpa using this.2

theorem movies_genres_in_mlGenres (movies : List MovieRec) :
    ∀ m ∈ movies, m.mid ∈ movies.map (fun mv => mv.mid)
      ∧ ∀ g ∈ m.genres, g ∈ mlGenres movies := by
  intro m hm
  refine ⟨List.mem_map_of_mem (fun mv => mv.mid) hm, fun g hg => ?_⟩
  exact List.mem_dedup.mpr
    (List.mem_flatten_of_mem (List.mem_map_of_mem (fun mv => mv.genres) hm) hg)

theorem coveredSoFar_all_covered {seen : List Nat} {l : List MLCmd}
    (h : ∀ c ∈ l, ∃ i s d lab, c = MLCmd.insE i s d lab ∧ s ∈ seen ∧ d ∈ seen) :
    coveredSoFar seen l = true := by
  induction l with
  | nil => rfl
  | cons c t ih =>
    obtain ⟨i, s', d, lab, hc, hs, hd⟩ := h c (by simp)
    subst hc
    simp only [coveredSoFar, decide_eq_true hs, decide_eq_true hd, Bool.true_and]
    exact ih (fun c hc => h c (by simp [hc]))

theorem movieNodeId_mem (movies : List MovieRec) :
    ∀ k ∈ movies.map (fun m => m.mid), movieNodeId movies k ∈ mlMovieNodeIds movies := by
  intro k hk
  rw [List.mem_map] at hk
  obtain ⟨m, hm, hmk⟩ := hk
  subst hmk
  exact List.mem_map_of_mem _ hm

/-- C6: in a `load_movielens_data.py` run, every `insert E` command
references endpoints for which an `insert N` command was issued earlier in
the run: RATED edges connect a mapped user id to a mapped movie id (ratings
are pre-filtered to the loaded movie ids), HAS_GENRE edges connect a mapped
movie id to a mapped genre id, so no edge references a nonexistent node. -/
theorem movielens_edges_reference_inserted_nodes
    (movies : List MovieRec) (raw : List (Nat × Nat)) :
    coveredSoFar [] (mlRun movies raw) = true
    ∧ (mlRatedCmds movies raw).all
        (edgeConnects (mlUserNodeIds movies (mlUsers (mlRatings movies raw)))
          (mlMovieNodeIds movies) "RATED") = true
    ∧ (mlHasGenreCmds movies raw).all
        (edgeConnects (mlMovieNodeIds movies)
          (mlGenreNodeIds movies (mlUsers (mlRatings movies raw)) (mlGenres movies))
          "HAS_GENRE") = true := by
  have husers := mlRatings_endpoints movies raw
  have hgen := movies_genres_in_mlGenres movies
  have hratedShape :=
    ratedCmdsAux_shape movies (mlUsers (mlRatings movies raw)) (mlRatings movies raw) husers
  have hgenreShape :=
    hasGenreCmdsAux_shape movies (mlUsers (mlRatings movies raw)) (mlGenres movies) movies hgen
  refine ⟨?_, ?_, ?_⟩
  · simp only [mlRun, mlNodeCmds, List.append_assoc]
    rw [coveredSoFar_ns, coveredSoFar_ns, coveredSoFar_ns,
      coveredSoFar_append_covered ?_]
    · apply coveredSoFar_all_covered
      intro c hc
      obtain ⟨i, k, g, hc', hk, hg⟩ := hgenreShape _ c hc
      refine ⟨i, _, _, "HAS_GENRE", hc', ?_, ?_⟩
      · have hmem := movieNodeId_mem movies k hk
        simp [List.mem_append, List.mem_reverse, hmem]
      · have hmem : genreNodeId movies (mlUsers (mlRatings movies raw)) (mlGenres movies) g
            ∈ mlGenreNodeIds movies (mlUsers (mlRatings movies raw)) (mlGenres movies) :=
          List.mem_map_of_mem _ hg
        simp [List.mem_append, List.mem_reverse, hmem]
    · intro c hc
      obtain ⟨i, u, k, hc', hu, hk⟩ := hratedShape 1 c hc
      refine ⟨i, _, _, "RATED", hc', ?_, ?_⟩
      · have hmem : userNodeId movies (mlUsers (mlRatings movies raw)) u
            ∈ mlUserNodeIds movies (mlUsers (mlRatings movies raw)) :=
          List.mem_map_of_mem _ hu
        simp [List.mem_append, List.mem_reverse, hmem]
      · have hmem := movieNodeId_mem movies k hk
        simp [List.mem_append, List.mem_reverse, hmem]
  · rw [List.all_eq_true]
    intro c hc
    obtain ⟨i, u, k, hc', hu, hk⟩ := hratedShape 1 c hc
    subst hc'
    have h1 : userNodeId movies (mlUsers (mlRatings movies raw)) u
        ∈ mlUserNodeIds movies (mlUsers (mlRatings movies raw)) :=
      List.mem_map_of_mem _ hu
    have h2 := movieNodeId_mem movies k hk
    simp [edgeConnects, h1, h2]
  · rw [List.all_eq_true]
    intro c hc
    obtain ⟨i, k, g, hc', hk, hg⟩ := hgenreShape _ c hc
    subst hc'
    have h1 := movieNodeId_mem movies k hk
    have h2 : genreNodeId movies (mlUsers (mlRatings movies raw)) (mlGenres movies) g
        ∈ mlGenreNodeIds movies (mlUsers (mlRatings movies raw)) (mlGenres movies) :=
      List.mem_map_of_mem _ hg
    simp [edgeConnects, h1, h2]

end PGView
